import Mathlib

/-!
Verification of the page-remap stressor (stress-remap.c) and the
syscall-user-dispatch stressor (stress-usersyscall.c).

The C code is shallowly embedded: each C function that the claims touch is
translated to an executable Lean definition.  Kernel-side effects
(remap_file_pages rebinding a virtual page to a physical page of the shared
anonymous object, syscall return values and errno, the contents of
/proc/self/maps) are modelled by an explicit state / environment threaded
through the definitions, so that the code's control flow and bookkeeping are
reproduced exactly while the kernel's observable behaviour is a parameter.
-/

/-! ## stress-remap.c : data model

`N_PAGES` pages, each holding one `uint16_t` tag at its first element slot
(`data[i * stride]`).  The kernel state records which physical page of the
anonymous object currently backs each virtual page (`mapping`) and the tag
stored in each physical page (`physTag`).  `remap_file_pages(data + i*stride,
page_size, 0, order[i], 0)` rebinds virtual page `i` to physical page
`order[i]`; the data itself is never copied, and after the initialisation
loop `data[i * stride] = (stress_mapdata_t)i` the tags are never rewritten,
so `physTag` is constant over all remap passes. -/

def N_PAGES : ℕ := 512

instance : NeZero N_PAGES := ⟨by norm_num [N_PAGES]⟩

/-- Outcome of the environment for one index of a remap pass:
whether `mlock` returned 0, whether the first (timed) `remap_file_pages`
call returned 0, and whether the unlocked retry would return 0. -/
structure RemapCallEnv where
  lockOk : Bool
  remap1Ok : Bool
  remap2Ok : Bool
deriving DecidableEq

/-- The per-index remap finally succeeds iff the first call succeeded or the
retry succeeded (under HAVE_MLOCK the retry runs whenever `ret != 0`). -/
def callOk (e : RemapCallEnv) : Bool := e.remap1Ok || e.remap2Ok

/-- Per-index summary of `remap_order`'s loop body (stress-remap.c lines
92-118): `ok` is whether the final `ret` is 0, `callCount` how many
`remap_file_pages` calls were issued, `accumulated` whether the duration and
count metrics were bumped (lines 100-103: only when the first, timed call
returned 0). -/
structure CallOutcome where
  ok : Bool
  callCount : ℕ
  accumulated : Bool
deriving DecidableEq

def remapCallOutcome (e : RemapCallEnv) : CallOutcome :=
  if e.remap1Ok then ⟨true, 1, true⟩ else ⟨e.remap2Ok, 2, false⟩

/-- The sequence of system calls issued for one index of `remap_order`,
in program order: `mlock` (line 95), the timed `remap_file_pages` (line 98),
`munlock` iff `mlock` returned 0 (lines 105-107), and the unlocked retry
iff the first remap call failed (lines 108-112). -/
inductive RemapEvent where
  | mlockCall
  | remapCall1
  | munlockCall
  | remapCall2
deriving DecidableEq

def remapCallEvents (e : RemapCallEnv) : List RemapEvent :=
  [RemapEvent.mlockCall, RemapEvent.remapCall1]
    ++ (if e.lockOk then [RemapEvent.munlockCall] else [])
    ++ (if e.remap1Ok then [] else [RemapEvent.remapCall2])

/-- Kernel/program state for the remap stressor.  `mapping v` is the physical
page of the anonymous object backing virtual page `v`; `physTag p` is the
`uint16_t` value stored at physical page `p`'s first element slot; `duration`
and `count` are the metric accumulators (C doubles, modelled as ℚ). -/
structure RemapSt where
  mapping : Fin N_PAGES → Fin N_PAGES
  physTag : Fin N_PAGES → ℕ
  duration : ℚ
  count : ℚ

/-- State after setup (stress-remap.c lines 138-148): the fresh shared
anonymous mapping is identity-backed and the loop
`data[i * stride] = (stress_mapdata_t)i` stores tag `i` (truncated to
`uint16_t`) into physical page `i`. -/
def initSt : RemapSt :=
  { mapping := fun v => v
    physTag := fun p => p.val % 65536
    duration := 0
    count := 0 }

/-- The value read back at virtual page `v`'s first element slot,
`data[v * stride]`. -/
def readTag (st : RemapSt) (v : Fin N_PAGES) : ℕ := st.physTag (st.mapping v)

/-- One index of `remap_order`'s loop: time and issue
`remap_file_pages(data + i*stride, page_size, 0, order[i], 0)`, accumulate
duration/count iff that first call succeeded, and (HAVE_MLOCK) retry
unlocked iff it failed.  A successful call (first or retry) rebinds virtual
page `i` to physical page `pg = order[i]`; a failed call leaves the mapping
unchanged. -/
def applyCall (e : RemapCallEnv) (el : ℚ) (st : RemapSt) (i pg : Fin N_PAGES) :
    Bool × RemapSt :=
  (callOk e,
    { mapping := if callOk e then Function.update st.mapping i pg else st.mapping
      physTag := st.physTag
      duration := if e.remap1Ok then st.duration + el else st.duration
      count := if e.remap1Ok then st.count + 1 else st.count })

/-- Environment for one remap pass: per-index call results and the elapsed
wall time recorded for each successful timed call. -/
structure PassEnv where
  call : Fin N_PAGES → RemapCallEnv
  elapsed : Fin N_PAGES → ℚ

structure PassResult where
  ok : Bool
  st : RemapSt
  attempted : List (Fin N_PAGES)

/-- The loop `for (i = 0; i < N_PAGES; i++)` of `remap_order`, with early
`return -1` (modelled as `ok = false`) when an index finally fails.
`attempted` records the indices whose loop body ran. -/
def remap_orderGo (pe : PassEnv) (order : Fin N_PAGES → Fin N_PAGES) :
    ℕ → ℕ → RemapSt → PassResult
  | 0, _, st => ⟨true, st, []⟩
  | fuel + 1, i, st =>
    if h : i < N_PAGES then
      let idx : Fin N_PAGES := ⟨i, h⟩
      let r0 := applyCall (pe.call idx) (pe.elapsed idx) st idx (order idx)
      if r0.1 then
        let r := remap_orderGo pe order fuel (i + 1) r0.2
        ⟨r.ok, r.st, idx :: r.attempted⟩
      else ⟨false, r0.2, [idx]⟩
    else ⟨true, st, []⟩

/-- `remap_order` (stress-remap.c lines 78-122). -/
def remap_order (pe : PassEnv) (order : Fin N_PAGES → Fin N_PAGES)
    (st : RemapSt) : PassResult :=
  remap_orderGo pe order N_PAGES 0 st

/-- `check_order`'s scan (stress-remap.c lines 63-68): walk the pages and
stop at the first index whose read-back tag differs from `order[i]`;
the result is the `failed` flag, i.e. whether `pr_fail` is issued. -/
def check_orderGo (d : Fin N_PAGES → ℕ) (o : Fin N_PAGES → Fin N_PAGES) :
    ℕ → ℕ → Bool
  | 0, _ => false
  | fuel + 1, i =>
    if h : i < N_PAGES then
      if d ⟨i, h⟩ ≠ (o ⟨i, h⟩).val then true else check_orderGo d o fuel (i + 1)
    else false

/-- `check_order` (stress-remap.c lines 53-72), returning whether the
non-fatal failure message was logged. -/
def check_order (d : Fin N_PAGES → ℕ) (o : Fin N_PAGES → Fin N_PAGES) : Bool :=
  check_orderGo d o N_PAGES 0

/-- Reverse order (lines 178-179): `order[i] = N_PAGES - 1 - i`. -/
def reverseOrder : Fin N_PAGES → Fin N_PAGES :=
  fun i => ⟨N_PAGES - 1 - i.val, by omega⟩

/-- Identity / forward order (lines 186-187 and 208-209): `order[i] = i`. -/
def forwardOrder : Fin N_PAGES → Fin N_PAGES := fun i => i

/-- All-pages-to-one order (lines 201-202): `order[i] = 0`. -/
def allToOneOrder : Fin N_PAGES → Fin N_PAGES := fun _ => 0

/-- The shuffle loop of lines 188-194: for each `i` in `[0, N_PAGES)` swap
`order[i]` with `order[j]` where `j = stress_mwc32modn(N_PAGES)` is the
`i`-th random draw.  Viewing the array as a function from positions to
values, swapping the entries at positions `i` and `j` composes with the
transposition of `i` and `j` on the right. -/
def shuffleGo (d : Fin N_PAGES → Fin N_PAGES) :
    ℕ → ℕ → (Fin N_PAGES → Fin N_PAGES) → (Fin N_PAGES → Fin N_PAGES)
  | 0, _, a => a
  | fuel + 1, i, a =>
    if h : i < N_PAGES then
      shuffleGo d fuel (i + 1) (a ∘ (Equiv.swap ⟨i, h⟩ (d ⟨i, h⟩)))
    else a

/-- The random order of lines 186-194: initialise `order[i] = i`, then run
the swap loop over the draws `d`. -/
def randomOrder (d : Fin N_PAGES → Fin N_PAGES) : Fin N_PAGES → Fin N_PAGES :=
  shuffleGo d N_PAGES 0 (fun i => i)

/-- Environment for one iteration of the main do-while loop: the call/timing
environments of the four passes and the random draws of the shuffle. -/
structure IterEnv where
  rev : PassEnv
  rand : PassEnv
  all1 : PassEnv
  fwd : PassEnv
  draws : Fin N_PAGES → Fin N_PAGES

/-- One iteration of the do-while body (lines 174-236): the four passes in
order, each followed by `check_order` when it succeeded, breaking out of the
body as soon as a pass fails.  The result is (loop continues?, state, list of
check-failure flags of the checks that ran).  The battery of deliberately
invalid `remap_file_pages` calls (lines 217-234) touches only the probe
mappings and has no effect on this state. -/
def runIteration (ie : IterEnv) (st : RemapSt) : Bool × RemapSt × List Bool :=
  let r1 := remap_order ie.rev reverseOrder st
  if r1.ok = false then (false, r1.st, []) else
  let c1 := check_order (readTag r1.st) reverseOrder
  let r2 := remap_order ie.rand (randomOrder ie.draws) r1.st
  if r2.ok = false then (false, r2.st, [c1]) else
  let c2 := check_order (readTag r2.st) (randomOrder ie.draws)
  let r3 := remap_order ie.all1 allToOneOrder r2.st
  if r3.ok = false then (false, r3.st, [c1, c2]) else
  let c3 := check_order (readTag r3.st) allToOneOrder
  let r4 := remap_order ie.fwd forwardOrder r3.st
  if r4.ok = false then (false, r4.st, [c1, c2, c3]) else
  let c4 := check_order (readTag r4.st) forwardOrder
  (true, r4.st, [c1, c2, c3, c4])

/-- The same iteration with the `check_order` calls erased: used to state
that the verification checks influence neither the control flow nor the
state of the loop (they only log). -/
def runPassesOnly (ie : IterEnv) (st : RemapSt) : Bool × RemapSt :=
  let r1 := remap_order ie.rev reverseOrder st
  if r1.ok = false then (false, r1.st) else
  let r2 := remap_order ie.rand (randomOrder ie.draws) r1.st
  if r2.ok = false then (false, r2.st) else
  let r3 := remap_order ie.all1 allToOneOrder r2.st
  if r3.ok = false then (false, r3.st) else
  let r4 := remap_order ie.fwd forwardOrder r3.st
  if r4.ok = false then (false, r4.st) else
  (true, r4.st)

/-- The do-while loop of `stress_remap` (lines 174-236): the body always runs
once; afterwards it repeats while no pass failed (`break`) and
`keep_stressing` holds.  `fuel` bounds the number of iterations. -/
def stress_remapLoop (ienvs : ℕ → IterEnv) (keep : ℕ → Bool) :
    ℕ → ℕ → RemapSt → RemapSt
  | 0, _, st => st
  | fuel + 1, k, st =>
    let r := runIteration (ienvs k) st
    if r.1 && keep (k + 1) then stress_remapLoop ienvs keep fuel (k + 1) r.2.1
    else r.2.1

/-- `stress_remap`'s loop plus teardown (lines 240-241): run the loop from
the freshly initialised state, then emit the single metric
`rate = (count > 0.0) ? duration / count : 0.0` scaled by `1e9` under the
label "nanosecs per page remap". -/
def stress_remap (ienvs : ℕ → IterEnv) (keep : ℕ → Bool) (fuel : ℕ) :
    RemapSt × String × ℚ :=
  let st := stress_remapLoop ienvs keep fuel 0 initSt
  let rate : ℚ := if st.count > 0 then st.duration / st.count else 0
  (st, "nanosecs per page remap", rate * 1000000000)

/-! ## Helper lemmas: check_order, iteration and loop structure -/

theorem check_orderGo_eq_true_iff (d : Fin N_PAGES → ℕ) (o : Fin N_PAGES → Fin N_PAGES) :
    ∀ fuel i, i + fuel = N_PAGES →
      (check_orderGo d o fuel i = true ↔ ∃ j : Fin N_PAGES, i ≤ j.val ∧ d j ≠ (o j).val) := by
  intro fuel
  induction fuel with
  | zero =>
    intro i hi
    simp only [check_orderGo]
    constructor
    · intro hf; cases hf
    · rintro ⟨j, hij, _⟩
      have := j.isLt
      omega
  | succ fuel ih =>
    intro i hi
    have h : i < N_PAGES := by omega
    rw [check_orderGo, dif_pos h]
    by_cases hd : d ⟨i, h⟩ ≠ (o ⟨i, h⟩).val
    · rw [if_pos hd]
      constructor
      · intro _
        exact ⟨⟨i, h⟩, le_rfl, hd⟩
      · intro _; rfl
    · rw [if_neg hd]
      rw [ih (i + 1) (by omega)]
      constructor
      · rintro ⟨j, hij, hj⟩
        exact ⟨j, by omega, hj⟩
      · rintro ⟨j, hij, hj⟩
        refine ⟨j, ?_, hj⟩
        rcases Nat.eq_or_lt_of_le hij with heq | hlt
        · exfalso
          have hji : j = ⟨i, h⟩ := Fin.ext heq.symm
          rw [hji] at hj
          exact hj (by simpa using hd)
        · omega

/-- `check_order` logs a failure exactly when some page's tag disagrees with
the requested order value. -/
theorem check_order_eq_true_iff (d : Fin N_PAGES → ℕ) (o : Fin N_PAGES → Fin N_PAGES) :
    check_order d o = true ↔ ∃ j : Fin N_PAGES, d j ≠ (o j).val := by
  rw [check_order, check_orderGo_eq_true_iff d o N_PAGES 0 (by omega)]
  constructor
  · rintro ⟨j, _, hj⟩; exact ⟨j, hj⟩
  · rintro ⟨j, hj⟩; exact ⟨j, Nat.zero_le _, hj⟩

theorem check_order_eq_false_iff (d : Fin N_PAGES → ℕ) (o : Fin N_PAGES → Fin N_PAGES) :
    check_order d o = false ↔ ∀ j : Fin N_PAGES, d j = (o j).val := by
  rw [← Bool.not_eq_true, check_order_eq_true_iff]
  push_neg
  rfl

/-- The verification checks only log: erasing them changes neither the
continue/break decision nor the state of an iteration. -/
theorem runIteration_eq_runPassesOnly (ie : IterEnv) (st : RemapSt) :
    (runIteration ie st).1 = (runPassesOnly ie st).1 ∧
      (runIteration ie st).2.1 = (runPassesOnly ie st).2 := by
  unfold runIteration runPassesOnly
  by_cases h1 : (remap_order ie.rev reverseOrder st).ok = false
  · simp [h1]
  · rw [if_neg h1, if_neg h1]
    by_cases h2 : (remap_order ie.rand (randomOrder ie.draws) (remap_order ie.rev reverseOrder st).st).ok = false
    · simp [h2]
    · rw [if_neg h2, if_neg h2]
      by_cases h3 : (remap_order ie.all1 allToOneOrder (remap_order ie.rand (randomOrder ie.draws) (remap_order ie.rev reverseOrder st).st).st).ok = false
      · simp [h3]
      · rw [if_neg h3, if_neg h3]
        by_cases h4 : (remap_order ie.fwd forwardOrder (remap_order ie.all1 allToOneOrder (remap_order ie.rand (randomOrder ie.draws) (remap_order ie.rev reverseOrder st).st).st).st).ok = false
        · simp [h4]
        · rw [if_neg h4, if_neg h4]
          exact ⟨rfl, rfl⟩

/-- An iteration lets the loop continue only when all four passes succeeded:
a fatal remap failure in any pass breaks out. -/
theorem runIteration_ok_passes (ie : IterEnv) (st : RemapSt)
    (h : (runIteration ie st).1 = true) :
    (remap_order ie.rev reverseOrder st).ok = true ∧
    (remap_order ie.rand (randomOrder ie.draws)
      (remap_order ie.rev reverseOrder st).st).ok = true ∧
    (remap_order ie.all1 allToOneOrder (remap_order ie.rand (randomOrder ie.draws)
      (remap_order ie.rev reverseOrder st).st).st).ok = true ∧
    (remap_order ie.fwd forwardOrder (remap_order ie.all1 allToOneOrder
      (remap_order ie.rand (randomOrder ie.draws)
        (remap_order ie.rev reverseOrder st).st).st).st).ok = true := by
  unfold runIteration at h
  dsimp only at h
  by_cases h1 : (remap_order ie.rev reverseOrder st).ok = false
  · rw [if_pos h1] at h; cases h
  · rw [if_neg h1] at h
    by_cases h2 : (remap_order ie.rand (randomOrder ie.draws) (remap_order ie.rev reverseOrder st).st).ok = false
    · rw [if_pos h2] at h; cases h
    · rw [if_neg h2] at h
      by_cases h3 : (remap_order ie.all1 allToOneOrder (remap_order ie.rand (randomOrder ie.draws) (remap_order ie.rev reverseOrder st).st).st).ok = false
      · rw [if_pos h3] at h; cases h
      · rw [if_neg h3] at h
        by_cases h4 : (remap_order ie.fwd forwardOrder (remap_order ie.all1 allToOneOrder (remap_order ie.rand (randomOrder ie.draws) (remap_order ie.rev reverseOrder st).st).st).st).ok = false
        · rw [if_pos h4] at h; cases h
        · exact ⟨Bool.not_eq_false _ ▸ h1, Bool.not_eq_false _ ▸ h2,
            Bool.not_eq_false _ ▸ h3, Bool.not_eq_false _ ▸ h4⟩

/-- An iteration that broke out of the do-while body ends the loop: the
state it left is the loop's final state. -/
theorem stress_remapLoop_stop (ienvs : ℕ → IterEnv) (keep : ℕ → Bool)
    (fuel k : ℕ) (st : RemapSt) (h : (runIteration (ienvs k) st).1 = false) :
    stress_remapLoop ienvs keep (fuel + 1) k st = (runIteration (ienvs k) st).2.1 := by
  rw [stress_remapLoop]
  rw [h]
  simp

/-! ## Helper lemmas: the four orders -/

theorem reverseOrder_involutive : Function.Involutive reverseOrder := by
  intro i
  apply Fin.ext
  have := i.isLt
  simp only [reverseOrder, N_PAGES] at *
  omega

theorem reverseOrder_bijective : Function.Bijective reverseOrder :=
  reverseOrder_involutive.bijective

theorem forwardOrder_bijective : Function.Bijective forwardOrder :=
  Function.bijective_id

theorem shuffleGo_bijective (d : Fin N_PAGES → Fin N_PAGES) :
    ∀ fuel i a, Function.Bijective a → Function.Bijective (shuffleGo d fuel i a) := by
  intro fuel
  induction fuel with
  | zero => intro i a ha; exact ha
  | succ fuel ih =>
    intro i a ha
    rw [shuffleGo]
    split
    · exact ih _ _ (ha.comp (Equiv.swap _ _).bijective)
    · exact ha

/-- Whatever the random draws were, the shuffled order is a permutation of
the page indices. -/
theorem randomOrder_bijective (d : Fin N_PAGES → Fin N_PAGES) :
    Function.Bijective (randomOrder d) :=
  shuffleGo_bijective d N_PAGES 0 _ Function.bijective_id

/-! ## Helper lemmas: distribution of the shuffled order

The shuffle consumes exactly `N_PAGES` independent draws, each uniform over
`[0, N_PAGES)`, so a draw sequence is an element of
`Fin N_PAGES → Fin N_PAGES` and all draw sequences are equally likely.
"Every permutation is produced with equal probability" therefore says that
all fibres of `randomOrder` over bijective outputs have the same
cardinality.  That is impossible: the `N_PAGES ^ N_PAGES` draw sequences
would have to split evenly over the `N_PAGES !` permutations, forcing
`N_PAGES ! ∣ N_PAGES ^ N_PAGES`, yet `3 ∣ N_PAGES !` while
`N_PAGES ^ N_PAGES` is a power of two. -/

theorem card_draws :
    (Finset.univ : Finset (Fin N_PAGES → Fin N_PAGES)).card = N_PAGES ^ N_PAGES := by
  rw [Finset.card_univ, Fintype.card_fun, Fintype.card_fin]

/-- Generic form of the non-uniformity argument: a shuffle of a finite type
`α` driven by one uniform draw from `α` per position (so `card α ^ card α`
equally likely draw sequences) whose outputs are all bijective cannot give
every bijection an equal number of draw sequences when
`(card α)! ∤ (card α) ^ (card α)`. -/
theorem fibers_unequal_generic {α : Type} [Fintype α] [DecidableEq α]
    (sh : (α → α) → (α → α)) (hsh : ∀ d, Function.Bijective (sh d))
    (hnd : ¬ Nat.factorial (Fintype.card α) ∣ Fintype.card α ^ Fintype.card α) :
    ∃ f g : α → α, Function.Bijective f ∧ Function.Bijective g ∧
      (Finset.univ.filter fun x : α → α => sh x = f).card ≠
      (Finset.univ.filter fun x : α → α => sh x = g).card := by
  by_contra hcon
  push_neg at hcon
  have hmem : ∀ x : α → α, x ∈ (Finset.univ : Finset (α → α)) →
      sh x ∈ Finset.univ.image (fun p : Equiv.Perm α => (p : α → α)) :=
    fun x _ => Finset.mem_image.2
      ⟨Equiv.ofBijective (sh x) (hsh x), Finset.mem_univ _, rfl⟩
  have hcard := Finset.card_eq_sum_card_fiberwise hmem
  have hconst : ∀ b ∈ Finset.univ.image (fun p : Equiv.Perm α => (p : α → α)),
      (Finset.univ.filter fun x : α → α => sh x = b).card
        = (Finset.univ.filter fun x : α → α => sh x = id).card := by
    intro b hb
    obtain ⟨p, _, hp⟩ := Finset.mem_image.1 hb
    exact hcon b id (hp ▸ p.bijective) Function.bijective_id
  have himg : (Finset.univ.image (fun p : Equiv.Perm α => (p : α → α))).card
      = Nat.factorial (Fintype.card α) := by
    rw [Finset.card_image_of_injective _ (fun p q hpq => Equiv.coe_fn_injective hpq)]
    rw [Finset.card_univ, Fintype.card_perm]
  rw [Finset.sum_congr rfl hconst, Finset.sum_const, smul_eq_mul] at hcard
  rw [Finset.card_univ, Fintype.card_fun, himg] at hcard
  exact hnd ⟨_, hcard⟩

/-- The fibres of the shuffle over bijective outputs cannot all have the
same size: the naive swap loop is not a uniform shuffle. -/
theorem shuffle_fibers_unequal :
    ∃ f g : Fin N_PAGES → Fin N_PAGES, Function.Bijective f ∧ Function.Bijective g ∧
      (Finset.univ.filter fun x : Fin N_PAGES → Fin N_PAGES => randomOrder x = f).card ≠
      (Finset.univ.filter fun x : Fin N_PAGES → Fin N_PAGES => randomOrder x = g).card := by
  refine fibers_unequal_generic randomOrder randomOrder_bijective ?_
  rw [Fintype.card_fin]
  intro hdvd
  have h3 : (3 : ℕ) ∣ N_PAGES ^ N_PAGES :=
    dvd_trans (Nat.dvd_factorial (by norm_num) (by norm_num [N_PAGES])) hdvd
  have h4 : (3 : ℕ) ∣ N_PAGES := Nat.Prime.dvd_of_dvd_pow Nat.prime_three h3
  norm_num [N_PAGES] at h4

/-! ## stress-usersyscall.c : data model

The loop body of `stress_usersyscall` (lines 230-339) is a function of the
outcomes the kernel produces for its probes: whether the
`prctl(PR_SET_SYSCALL_USER_DISPATCH, PR_SYS_DISPATCH_ON, ...)` call
succeeds, the `errno` observed after issuing the reserved syscall number
with the selector set to Allow, and the return value, `errno` and captured
`siginfo` fields observed for the same syscall with the selector set to
Block. -/

/-- Linux ENOSYS. -/
def ENOSYS : ℕ := 38

/-- `SYS_USER_DISPATCH` `si_code` value (stress-usersyscall.c line 54). -/
def SYS_USER_DISPATCH : Int := 2

/-- Kernel-produced outcomes for one iteration of the loop. -/
structure SyscallEnv where
  prctlOk : Bool
  errno1 : ℕ
  ret2 : Int
  errno2 : ℕ
  siCode : Int
  siErrno : Int
deriving DecidableEq

/-- How one iteration of the do-while body ends: `breakOut` is the `break`
on a failed `prctl`; `skipNotImpl` is the `goto err` with
`rc = EXIT_NOT_IMPLEMENTED`; `nextIter` is a `continue` after a non-fatal
verification failure; `completed` reaches `inc_counter`. -/
inductive IterExit where
  | breakOut
  | skipNotImpl
  | nextIter
  | completed
deriving DecidableEq

/-- What one iteration reported: its exit kind, the `pr_fail` flags of the
four verification checks, and whether the informational skip message
(`pr_inf_skip`) was issued. -/
structure IterReport where
  exit : IterExit
  probe1Fail : Bool
  probe2Fail : Bool
  siCodeFail : Bool
  siErrnoFail : Bool
  skipInfo : Bool
deriving DecidableEq

/-- One iteration of the do-while body (stress-usersyscall.c lines 230-339):
enable dispatch with the selector at Allow (break on `prctl` failure), issue
the reserved syscall and flag `errno != ENOSYS` as a verification failure
(lines 244-249), then issue it with the selector at Block: a return value
other than the reserved number means skip-and-stop when `errno == ENOSYS`
(lines 260-265) and a non-fatal verification failure otherwise; with the
expected return value, `si_code != SYS_USER_DISPATCH` and `si_errno != 0`
are further non-fatal verification failures (lines 272-282). -/
def stress_usersyscall_iter (usrNo : Int) (env : SyscallEnv) : IterReport :=
  if env.prctlOk = false then ⟨.breakOut, false, false, false, false, false⟩
  else
    let p1 : Bool := decide (¬ env.errno1 = ENOSYS)
    if env.ret2 ≠ usrNo then
      if env.errno2 = ENOSYS then ⟨.skipNotImpl, p1, false, false, false, true⟩
      else ⟨.nextIter, p1, true, false, false, false⟩
    else if env.siCode ≠ SYS_USER_DISPATCH then ⟨.nextIter, p1, false, true, false, false⟩
    else if env.siErrno ≠ 0 then ⟨.nextIter, p1, false, false, true, false⟩
    else ⟨.completed, p1, false, false, false, false⟩

/-- Stressor exit statuses used by these two files. -/
inductive ExitStatus where
  | success
  | noResource
  | notImplemented
deriving DecidableEq

/-- The do-while loop of `stress_usersyscall`: a `break` falls through to
`rc = EXIT_SUCCESS`; the `goto err` path returns `EXIT_NOT_IMPLEMENTED`;
`continue` and a completed body both proceed to the `keep_stressing`
check. -/
def stress_usersyscallLoop (usrNo : Int) (envs : ℕ → SyscallEnv)
    (keep : ℕ → Bool) : ℕ → ℕ → ExitStatus
  | 0, _ => .success
  | fuel + 1, k =>
    match (stress_usersyscall_iter usrNo (envs k)).exit with
    | .breakOut => .success
    | .skipNotImpl => .notImplemented
    | .nextIter => if keep (k + 1) then stress_usersyscallLoop usrNo envs keep fuel (k + 1) else .success
    | .completed => if keep (k + 1) then stress_usersyscallLoop usrNo envs keep fuel (k + 1) else .success

/-! ## stress_sigsys_libc_mapping

The scan of `/proc/self/maps` (stress-usersyscall.c lines 124-172) is
modelled on the parsed lines: each line yields the number of fields `sscanf`
matched, the two addresses, the permission string and the backing path.
`fopen` failure is the `none` case. -/

/-- One parsed line of `/proc/self/maps`. -/
structure MapEntry where
  mapBegin : ℕ
  mapEnd : ℕ
  perm : String
  path : String
  fields : ℕ

/-- `~(uintptr_t)0` on the x86-64 targets this code is compiled for. -/
def UINTPTR_MAX : ℕ := 2 ^ 64 - 1

/-- `strstr(hay, needle) != NULL`. -/
def strstrB (needle hay : String) : Bool := decide (needle.toList <:+: hay.toList)

/-- The line-acceptance test of lines 150-153: all 8 fields scanned, the
permission field starts with `r-xp`, and the path contains `.so` together
with `/libc-` or `/libc.so`. -/
def entryMatches (e : MapEntry) : Bool :=
  decide (e.fields = 8) && decide (e.perm.take 4 = "r-xp") && strstrB ".so" e.path
    && (strstrB "/libc-" e.path || strstrB "/libc.so" e.path)

/-- The `while (fgets(...))` accumulation (lines 138-160): for each matching
line lower `*begin` and raise `*end`. -/
def libcScanGo : List MapEntry → ℕ → ℕ → ℕ × ℕ
  | [], b, e => (b, e)
  | x :: rest, b, e =>
    if entryMatches x then
      libcScanGo rest (if b > x.mapBegin then x.mapBegin else b)
        (if e < x.mapEnd then x.mapEnd else e)
    else libcScanGo rest b e

/-- `stress_sigsys_libc_mapping` (lines 124-172): returns
`(return value, *begin, *end)`; `maps = none` models `fopen` failing. -/
def stress_sigsys_libc_mapping (maps : Option (List MapEntry)) : Int × ℕ × ℕ :=
  match maps with
  | none => (-1, 0, 0)
  | some entries =>
    let be := libcScanGo entries UINTPTR_MAX 0
    if be.1 = UINTPTR_MAX || be.2 = 0 then (-1, 0, 0) else (0, be.1, be.2)

/-! ## Helper lemmas: the /proc/self/maps scan -/

theorem min_ite (b a : ℕ) : (if b > a then a else b) = min b a := by
  split <;> omega

theorem max_ite (e a : ℕ) : (if e < a then a else e) = max e a := by
  split <;> omega

theorem libcScanGo_spec :
    ∀ (l : List MapEntry) (b e : ℕ),
      libcScanGo l b e
        = (((l.filter entryMatches).map MapEntry.mapBegin).foldl min b,
           ((l.filter entryMatches).map MapEntry.mapEnd).foldl max e) := by
  intro l
  induction l with
  | nil => intro b e; rfl
  | cons x rest ih =>
    intro b e
    cases hB : entryMatches x with
    | true =>
      rw [libcScanGo, if_pos hB, ih, List.filter_cons, if_pos hB]
      rw [List.map_cons, List.map_cons, List.foldl_cons, List.foldl_cons,
        min_ite, max_ite]
    | false =>
      rw [libcScanGo, if_neg (by simp [hB]), ih, List.filter_cons,
        if_neg (by simp [hB])]

theorem foldl_min_le_init : ∀ (L : List ℕ) (b : ℕ), L.foldl min b ≤ b := by
  intro L
  induction L with
  | nil => intro b; exact le_rfl
  | cons a L ih =>
    intro b
    rw [List.foldl_cons]
    exact le_trans (ih (min b a)) (min_le_left _ _)

theorem foldl_min_le_mem : ∀ (L : List ℕ) (b x : ℕ), x ∈ L → L.foldl min b ≤ x := by
  intro L
  induction L with
  | nil => intro b x hx; cases hx
  | cons a L ih =>
    intro b x hx
    rw [List.foldl_cons]
    rcases List.mem_cons.1 hx with rfl | hx2
    · exact le_trans (foldl_min_le_init _ _) (min_le_right _ _)
    · exact ih _ _ hx2

theorem foldl_min_mem_or : ∀ (L : List ℕ) (b : ℕ), L.foldl min b = b ∨ L.foldl min b ∈ L := by
  intro L
  induction L with
  | nil => intro b; exact Or.inl rfl
  | cons a L ih =>
    intro b
    rw [List.foldl_cons]
    rcases ih (min b a) with h | h
    · rw [h]
      rcases Nat.le_total b a with hba | hab
      · exact Or.inl (Nat.min_eq_left hba)
      · exact Or.inr (by rw [Nat.min_eq_right hab]; exact List.mem_cons_self _ _)
    · exact Or.inr (List.mem_cons_of_mem _ h)

theorem le_foldl_max_init : ∀ (L : List ℕ) (e : ℕ), e ≤ L.foldl max e := by
  intro L
  induction L with
  | nil => intro e; exact le_rfl
  | cons a L ih =>
    intro e
    rw [List.foldl_cons]
    exact le_trans (le_max_left _ _) (ih (max e a))

theorem le_foldl_max_mem : ∀ (L : List ℕ) (e x : ℕ), x ∈ L → x ≤ L.foldl max e := by
  intro L
  induction L with
  | nil => intro e x hx; cases hx
  | cons a L ih =>
    intro e x hx
    rw [List.foldl_cons]
    rcases List.mem_cons.1 hx with rfl | hx2
    · exact le_trans (le_max_right _ _) (le_foldl_max_init _ _)
    · exact ih _ _ hx2

theorem foldl_max_mem_or : ∀ (L : List ℕ) (e : ℕ), L.foldl max e = e ∨ L.foldl max e ∈ L := by
  intro L
  induction L with
  | nil => intro e; exact Or.inl rfl
  | cons a L ih =>
    intro e
    rw [List.foldl_cons]
    rcases ih (max e a) with h | h
    · rw [h]
      rcases Nat.le_total a e with hae | hea
      · exact Or.inl (Nat.max_eq_left hae)
      · exact Or.inr (by rw [Nat.max_eq_right hea]; exact List.mem_cons_self _ _)
    · exact Or.inr (List.mem_cons_of_mem _ h)

/-! ## Helper lemmas: remap passes -/

theorem applyCall_fst (e : RemapCallEnv) (el : ℚ) (st : RemapSt) (i pg : Fin N_PAGES) :
    (applyCall e el st i pg).1 = callOk e := rfl

theorem applyCall_physTag (e : RemapCallEnv) (el : ℚ) (st : RemapSt) (i pg : Fin N_PAGES) :
    (applyCall e el st i pg).2.physTag = st.physTag := rfl

theorem applyCall_mapping (e : RemapCallEnv) (el : ℚ) (st : RemapSt) (i pg : Fin N_PAGES) :
    (applyCall e el st i pg).2.mapping
      = if callOk e then Function.update st.mapping i pg else st.mapping := rfl

theorem applyCall_count (e : RemapCallEnv) (el : ℚ) (st : RemapSt) (i pg : Fin N_PAGES) :
    (applyCall e el st i pg).2.count
      = if e.remap1Ok then st.count + 1 else st.count := rfl

theorem applyCall_duration (e : RemapCallEnv) (el : ℚ) (st : RemapSt) (i pg : Fin N_PAGES) :
    (applyCall e el st i pg).2.duration
      = if e.remap1Ok then st.duration + el else st.duration := rfl

/-- Unfolding lemma for the step of `remap_orderGo` inside the page range. -/
theorem remap_orderGo_step (pe : PassEnv) (order : Fin N_PAGES → Fin N_PAGES)
    (fuel i : ℕ) (st : RemapSt) (h : i < N_PAGES) :
    remap_orderGo pe order (fuel + 1) i st
      = (if callOk (pe.call ⟨i, h⟩) = true then
          let r := remap_orderGo pe order fuel (i + 1)
            (applyCall (pe.call ⟨i, h⟩) (pe.elapsed ⟨i, h⟩) st ⟨i, h⟩ (order ⟨i, h⟩)).2
          ⟨r.ok, r.st, ⟨i, h⟩ :: r.attempted⟩
        else
          ⟨false,
            (applyCall (pe.call ⟨i, h⟩) (pe.elapsed ⟨i, h⟩) st ⟨i, h⟩ (order ⟨i, h⟩)).2,
            [⟨i, h⟩]⟩) := by
  rw [remap_orderGo, dif_pos h]
  rfl

/-- Unfolding lemma for `remap_orderGo` past the page range. -/
theorem remap_orderGo_stop (pe : PassEnv) (order : Fin N_PAGES → Fin N_PAGES)
    (fuel i : ℕ) (st : RemapSt) (h : ¬ i < N_PAGES) :
    remap_orderGo pe order (fuel + 1) i st = ⟨true, st, []⟩ := by
  rw [remap_orderGo, dif_neg h]

/-- A remap pass never touches the stored tags. -/
theorem remap_orderGo_physTag (pe : PassEnv) (order : Fin N_PAGES → Fin N_PAGES) :
    ∀ fuel i st, (remap_orderGo pe order fuel i st).st.physTag = st.physTag := by
  intro fuel
  induction fuel with
  | zero => intro i st; rfl
  | succ fuel ih =>
    intro i st
    by_cases h : i < N_PAGES
    · rw [remap_orderGo_step pe order fuel i st h]
      by_cases hc : callOk (pe.call ⟨i, h⟩) = true
      · rw [if_pos hc]
        dsimp only
        rw [ih, applyCall_physTag]
      · rw [if_neg hc]
        exact applyCall_physTag ..
    · rw [remap_orderGo_stop pe order fuel i st h]

/-- A remap pass leaves the mapping of pages below the start index alone. -/
theorem remap_orderGo_mapping_lt (pe : PassEnv) (order : Fin N_PAGES → Fin N_PAGES) :
    ∀ fuel i st (j : Fin N_PAGES), j.val < i →
      (remap_orderGo pe order fuel i st).st.mapping j = st.mapping j := by
  intro fuel
  induction fuel with
  | zero => intro i st j _; rfl
  | succ fuel ih =>
    intro i st j hj
    by_cases h : i < N_PAGES
    · rw [remap_orderGo_step pe order fuel i st h]
      by_cases hc : callOk (pe.call ⟨i, h⟩) = true
      · rw [if_pos hc]
        dsimp only
        rw [ih _ _ j (Nat.lt_succ_of_lt hj), applyCall_mapping, if_pos hc]
        exact Function.update_noteq (by intro he; subst he; simp at hj) _ _
      · rw [if_neg hc]
        dsimp only
        rw [applyCall_mapping, if_neg hc]
    · rw [remap_orderGo_stop pe order fuel i st h]

/-- A pass that hits an index whose remap finally fails (after the retry)
stops there: it reports failure, the attempted indices are exactly those up
to the failing one, and no later page is rebound. -/
theorem remap_orderGo_abort (pe : PassEnv) (order : Fin N_PAGES → Fin N_PAGES)
    (m : ℕ) (hm : m < N_PAGES) (hfail : callOk (pe.call ⟨m, hm⟩) = false) :
    ∀ fuel i st, i ≤ m → m < i + fuel →
      (∀ j (_hj : i ≤ j) (hjm : j < m), callOk (pe.call ⟨j, by omega⟩) = true) →
      (remap_orderGo pe order fuel i st).ok = false ∧
      (∀ j ∈ (remap_orderGo pe order fuel i st).attempted, j.val ≤ m) ∧
      (∀ j : Fin N_PAGES, i ≤ j.val → j.val ≤ m →
        j ∈ (remap_orderGo pe order fuel i st).attempted) ∧
      (∀ j : Fin N_PAGES, m < j.val →
        (remap_orderGo pe order fuel i st).st.mapping j = st.mapping j) := by
  intro fuel
  induction fuel with
  | zero => intro i st h1 h2 _; omega
  | succ fuel ih =>
    intro i st h1 h2 hpre
    have h : i < N_PAGES := by omega
    rcases Nat.eq_or_lt_of_le h1 with heq | hlt
    · have hc : ¬ callOk (pe.call ⟨i, h⟩) = true := by
        have hidx : (⟨i, h⟩ : Fin N_PAGES) = ⟨m, hm⟩ := Fin.ext heq
        rw [hidx, hfail]
        simp
      rw [remap_orderGo_step pe order fuel i st h, if_neg hc]
      refine ⟨rfl, ?_, ?_, ?_⟩
      · intro j hj
        rcases List.mem_singleton.1 hj with rfl
        exact Nat.le_of_eq heq
      · intro j hji hjm
        have hj : j = ⟨i, h⟩ := Fin.ext (show j.val = i by omega)
        rw [hj]
        exact List.mem_singleton.2 rfl
      · intro j hj
        dsimp only
        rw [applyCall_mapping, if_neg hc]
    · have hc : callOk (pe.call ⟨i, h⟩) = true := hpre i le_rfl hlt
      rw [remap_orderGo_step pe order fuel i st h, if_pos hc]
      dsimp only
      obtain ⟨ih1, ih2, ih3, ih4⟩ :=
        ih (i + 1) (applyCall (pe.call ⟨i, h⟩) (pe.elapsed ⟨i, h⟩) st ⟨i, h⟩ (order ⟨i, h⟩)).2
          (by omega) (by omega) (fun j hj hjm => hpre j (by omega) hjm)
      refine ⟨ih1, ?_, ?_, ?_⟩
      · intro j hj
        rcases List.mem_cons.1 hj with rfl | hj2
        · exact Nat.le_of_lt hlt
        · exact ih2 j hj2
      · intro j hji hjm
        by_cases hji2 : j.val = i
        · have hj : j = ⟨i, h⟩ := Fin.ext hji2
          rw [hj]
          exact List.mem_cons_self _ _
        · exact List.mem_cons_of_mem _ (ih3 j (by omega) hjm)
      · intro j hj
        rw [ih4 j hj, applyCall_mapping, if_pos hc]
        refine Function.update_noteq ?_ _ _
        intro he
        have hv : j.val = i := by rw [he]
        omega

/-- Failing finally at index `m` implies the first remap call failed there,
so that index never bumps the metric accumulators either. -/
theorem callOk_false_remap1 {e : RemapCallEnv} (h : callOk e = false) :
    e.remap1Ok = false := by
  rcases Bool.or_eq_false_iff.1 h with ⟨h1, _⟩
  exact h1

/-- The metric accumulators change exactly by the attempted indices whose
first (timed) remap call succeeded: `count` by their number, `duration` by
the sum of their elapsed times. -/
theorem remap_orderGo_accum (pe : PassEnv) (order : Fin N_PAGES → Fin N_PAGES) :
    ∀ fuel i st,
      (remap_orderGo pe order fuel i st).st.count
        = st.count + (((remap_orderGo pe order fuel i st).attempted.filter
            (fun j => (pe.call j).remap1Ok)).length : ℚ) ∧
      (remap_orderGo pe order fuel i st).st.duration
        = st.duration + (((remap_orderGo pe order fuel i st).attempted.filter
            (fun j => (pe.call j).remap1Ok)).map pe.elapsed).sum := by
  intro fuel
  induction fuel with
  | zero => intro i st; constructor <;> simp [remap_orderGo]
  | succ fuel ih =>
    intro i st
    by_cases h : i < N_PAGES
    · rw [remap_orderGo_step pe order fuel i st h]
      by_cases hc : callOk (pe.call ⟨i, h⟩) = true
      · rw [if_pos hc]
        dsimp only
        obtain ⟨ihc, ihd⟩ :=
          ih (i + 1) (applyCall (pe.call ⟨i, h⟩) (pe.elapsed ⟨i, h⟩) st ⟨i, h⟩ (order ⟨i, h⟩)).2
        rw [List.filter_cons]
        by_cases hr : (pe.call ⟨i, h⟩).remap1Ok = true
        · rw [if_pos (by simpa using hr)]
          constructor
          · rw [ihc, applyCall_count, if_pos hr]
            push_cast [List.length_cons]
            ring
          · rw [ihd, applyCall_duration, if_pos hr]
            rw [List.map_cons, List.sum_cons]
            ring
        · rw [if_neg (by simpa using hr)]
          constructor
          · rw [ihc, applyCall_count, if_neg hr]
          · rw [ihd, applyCall_duration, if_neg hr]
      · rw [if_neg hc]
        have hr : (pe.call ⟨i, h⟩).remap1Ok = false :=
          callOk_false_remap1 (Bool.not_eq_true _ ▸ hc)
        dsimp only
        rw [List.filter_cons]
        rw [if_neg (by simp [hr])]
        constructor
        · rw [applyCall_count, if_neg (by simp [hr])]
          simp
        · rw [applyCall_duration, if_neg (by simp [hr])]
          simp
    · rw [remap_orderGo_stop pe order fuel i st h]
      constructor <;> simp

/-- Wrapper: a remap pass keeps the stored tags intact. -/
theorem remap_order_physTag (pe : PassEnv) (order : Fin N_PAGES → Fin N_PAGES)
    (st : RemapSt) : (remap_order pe order st).st.physTag = st.physTag :=
  remap_orderGo_physTag pe order N_PAGES 0 st

/-- If a remap pass returns success, every index in the processed window has
been rebound to its `order` target. -/
theorem remap_orderGo_ok_mapping (pe : PassEnv) (order : Fin N_PAGES → Fin N_PAGES) :
    ∀ fuel i st, (remap_orderGo pe order fuel i st).ok = true →
      ∀ j : Fin N_PAGES, i ≤ j.val → j.val < i + fuel →
        (remap_orderGo pe order fuel i st).st.mapping j = order j := by
  intro fuel
  induction fuel with
  | zero => intro i st _ j h1 h2; omega
  | succ fuel ih =>
    intro i st hok j h1 h2
    by_cases h : i < N_PAGES
    · rw [remap_orderGo_step pe order fuel i st h] at hok ⊢
      by_cases hc : callOk (pe.call ⟨i, h⟩) = true
      · rw [if_pos hc] at hok ⊢
        dsimp only at hok ⊢
        rcases Nat.eq_or_lt_of_le h1 with heq | hlt
        · have hj : j = ⟨i, h⟩ := Fin.ext heq.symm
          subst hj
          rw [remap_orderGo_mapping_lt pe order fuel (i + 1) _ _ (by omega),
            applyCall_mapping, if_pos hc, Function.update_same]
        · exact ih _ _ hok j hlt (by omega)
      · rw [if_neg hc] at hok
        simp at hok
    · omega

/-- Wrapper: a successful remap pass rebinds every page to its order target. -/
theorem remap_order_ok_mapping (pe : PassEnv) (order : Fin N_PAGES → Fin N_PAGES)
    (st : RemapSt) (hok : (remap_order pe order st).ok = true) (j : Fin N_PAGES) :
    (remap_order pe order st).st.mapping j = order j :=
  remap_orderGo_ok_mapping pe order N_PAGES 0 st hok j (Nat.zero_le _)
    (by have := j.isLt; omega)

/-! ## The claims -/

/-- Claim C1: after every successful remap pass with order `o` (reverse,
random, collapse-to-one, or identity), the tag read back at each virtual
page `i`'s first element slot equals `o[i]` — so `check_order` logs nothing;
`check_order` reports a failure exactly when some tag mismatches, and that
report is non-fatal: the checks influence neither the state nor the
continue/break decision of the iteration loop. -/
theorem remap_c1_check_after_pass (pe : PassEnv) (order : Fin N_PAGES → Fin N_PAGES)
    (st : RemapSt) (hphys : ∀ p : Fin N_PAGES, st.physTag p = p.val % 65536)
    (hok : (remap_order pe order st).ok = true) :
    (∀ i : Fin N_PAGES, readTag (remap_order pe order st).st i = (order i).val) ∧
    check_order (readTag (remap_order pe order st).st) order = false ∧
    (∀ (d : Fin N_PAGES → ℕ) (o : Fin N_PAGES → Fin N_PAGES),
      check_order d o = true ↔ ∃ j : Fin N_PAGES, d j ≠ (o j).val) ∧
    (∀ (ie : IterEnv) (st0 : RemapSt),
      (runIteration ie st0).1 = (runPassesOnly ie st0).1 ∧
      (runIteration ie st0).2.1 = (runPassesOnly ie st0).2) := by
  have hread : ∀ i : Fin N_PAGES, readTag (remap_order pe order st).st i = (order i).val := by
    intro i
    unfold readTag
    rw [remap_order_physTag, remap_order_ok_mapping pe order st hok i, hphys]
    exact Nat.mod_eq_of_lt (lt_trans (order i).isLt (by norm_num [N_PAGES]))
  refine ⟨hread, ?_, check_order_eq_true_iff, runIteration_eq_runPassesOnly⟩
  rw [check_order_eq_false_iff]
  exact hread

def wPassAllOk : PassEnv := ⟨fun _ => ⟨true, true, true⟩, fun _ => 1⟩

set_option maxRecDepth 4000 in
theorem remap_c1_witness :
    ((∀ p : Fin N_PAGES, initSt.physTag p = p.val % 65536) ∧
      (remap_order wPassAllOk reverseOrder initSt).ok = true) ∧
    (∀ i : Fin N_PAGES,
      readTag (remap_order wPassAllOk reverseOrder initSt).st i = (reverseOrder i).val) := by
  have h1 : ∀ p : Fin N_PAGES, initSt.physTag p = p.val % 65536 := fun _ => rfl
  have h2 : (remap_order wPassAllOk reverseOrder initSt).ok = true := by decide
  exact ⟨⟨h1, h2⟩, (remap_c1_check_after_pass wPassAllOk reverseOrder initSt h1 h2).1⟩

/-- Claim C2 counterexample: the collapse-to-one order sends pages 0 and 1
to the same target, so it is not a permutation of `[0, N_PAGES)` — the claim
that every order used by a remap pass is a permutation fails on it. -/
theorem remap_c2_counterexample :
    allToOneOrder 0 = allToOneOrder 1 ∧ (0 : Fin N_PAGES) ≠ 1 ∧
      ¬ Function.Bijective allToOneOrder := by
  refine ⟨rfl, by decide, ?_⟩
  intro hbij
  exact absurd (hbij.1 (show allToOneOrder 0 = allToOneOrder 1 from rfl)) (by decide)

/-- Claim C2 (amended): the reverse, random and restore-to-identity orders
are permutations of the page indices `[0, N_PAGES)`; the collapse-to-one
order maps every page onto page 0 and is therefore not a permutation. -/
theorem remap_c2_orders_amended (d : Fin N_PAGES → Fin N_PAGES) :
    Function.Bijective reverseOrder ∧ Function.Bijective (randomOrder d) ∧
      Function.Bijective forwardOrder ∧
      (∀ i : Fin N_PAGES, allToOneOrder i = 0) ∧
      ¬ Function.Bijective allToOneOrder := by
  refine ⟨reverseOrder_bijective, randomOrder_bijective d, forwardOrder_bijective,
    fun _ => rfl, ?_⟩
  intro hbij
  exact absurd (hbij.1 (show allToOneOrder 0 = allToOneOrder 1 from rfl)) (by decide)

/-- Claim C3 counterexample: the random order is not produced with equal
probability for every permutation: over the `N_PAGES ^ N_PAGES` equally
likely draw sequences, two permutations have fibres of different sizes. -/
theorem remap_c3_counterexample :
    ¬ (∀ f g : Fin N_PAGES → Fin N_PAGES, Function.Bijective f → Function.Bijective g →
        (Finset.univ.filter fun x : Fin N_PAGES → Fin N_PAGES => randomOrder x = f).card =
        (Finset.univ.filter fun x : Fin N_PAGES → Fin N_PAGES => randomOrder x = g).card) := by
  intro H
  obtain ⟨f, g, hf, hg, hne⟩ := shuffle_fibers_unequal
  exact hne (H f g hf hg)

/-- Claim C3 (amended): the random order is generated by swapping each
position `i` with a position drawn uniformly from the whole range
`[0, N_PAGES)` — a naive shuffle, not Fisher–Yates.  Every draw sequence
yields a permutation of `[0, N_PAGES)`, but the permutations are not all
produced with equal probability over the underlying uniform draws. -/
theorem remap_c3_shuffle_amended :
    (∀ d : Fin N_PAGES → Fin N_PAGES, Function.Bijective (randomOrder d)) ∧
    (∃ f g : Fin N_PAGES → Fin N_PAGES, Function.Bijective f ∧ Function.Bijective g ∧
      (Finset.univ.filter fun x : Fin N_PAGES → Fin N_PAGES => randomOrder x = f).card ≠
      (Finset.univ.filter fun x : Fin N_PAGES → Fin N_PAGES => randomOrder x = g).card) :=
  ⟨randomOrder_bijective, shuffle_fibers_unequal⟩

/-- Claim C4 counterexample: with mlock failing (`lockOk = false`, so no pin
was held) and the first remap call failing, the loop body still issues a
second `remap_file_pages` call — the failed unpinned call is retried,
contradicting the claim that it is not. -/
theorem remap_c4_counterexample :
    ((⟨false, false, true⟩ : RemapCallEnv).lockOk = false) ∧
    ((⟨false, false, true⟩ : RemapCallEnv).remap1Ok = false) ∧
    (remapCallOutcome ⟨false, false, true⟩).callCount = 2 ∧
    ¬ (remapCallOutcome ⟨false, false, true⟩).callCount = 1 := by decide

/-- Claim C4 (amended): whenever the first remap call for a page fails it is
retried exactly once, regardless of whether a pin was held; when a pin was
taken it is released before the retry, so the retry always runs unpinned;
the index counts as fatal only if the retry fails too; a first call that
succeeds is never retried. -/
theorem remap_c4_retry_amended (e : RemapCallEnv) :
    ((remapCallOutcome e).callCount = if e.remap1Ok then 1 else 2) ∧
    ((remapCallOutcome e).ok = callOk e) ∧
    (e.remap1Ok = false → e.lockOk = true →
      [RemapEvent.munlockCall, RemapEvent.remapCall2].Sublist (remapCallEvents e)) ∧
    (RemapEvent.remapCall2 ∈ remapCallEvents e ↔ e.remap1Ok = false) := by
  rcases e with ⟨l, r1, r2⟩
  cases l <;> cases r1 <;> cases r2 <;> decide

theorem remap_c4_witness :
    ((⟨true, false, true⟩ : RemapCallEnv).remap1Ok = false) ∧
    (remapCallOutcome ⟨true, false, true⟩).callCount = 2 ∧
    [RemapEvent.munlockCall, RemapEvent.remapCall2].Sublist
      (remapCallEvents ⟨true, false, true⟩) := by
  have h := remap_c4_retry_amended ⟨true, false, true⟩
  exact ⟨rfl, h.1.trans rfl, h.2.2.1 rfl rfl⟩

/-- Claim C5: if the remap for index `k` still fails after the retry, the
pass aborts: it reports failure (`pr_fail`, returning -1), exactly the
indices up to `k` were attempted, no page past `k` is rebound, an iteration
continues only when all four passes succeeded, and an iteration that broke
out ends the do-while loop with its state final. -/
theorem remap_c5_abort (pe : PassEnv) (order : Fin N_PAGES → Fin N_PAGES)
    (st : RemapSt) (k : ℕ) (hk : k < N_PAGES)
    (hpre : ∀ j (hj : j < k), callOk (pe.call ⟨j, by omega⟩) = true)
    (hfail : callOk (pe.call ⟨k, hk⟩) = false) :
    (remap_order pe order st).ok = false ∧
    (∀ j ∈ (remap_order pe order st).attempted, j.val ≤ k) ∧
    (∀ j : Fin N_PAGES, j.val ≤ k → j ∈ (remap_order pe order st).attempted) ∧
    (∀ j : Fin N_PAGES, k < j.val → (remap_order pe order st).st.mapping j = st.mapping j) ∧
    (∀ (ie : IterEnv) (st0 : RemapSt), (runIteration ie st0).1 = true →
      (remap_order ie.rev reverseOrder st0).ok = true ∧
      (remap_order ie.rand (randomOrder ie.draws)
        (remap_order ie.rev reverseOrder st0).st).ok = true ∧
      (remap_order ie.all1 allToOneOrder (remap_order ie.rand (randomOrder ie.draws)
        (remap_order ie.rev reverseOrder st0).st).st).ok = true ∧
      (remap_order ie.fwd forwardOrder (remap_order ie.all1 allToOneOrder
        (remap_order ie.rand (randomOrder ie.draws)
          (remap_order ie.rev reverseOrder st0).st).st).st).ok = true) ∧
    (∀ (ienvs : ℕ → IterEnv) (keep : ℕ → Bool) (fuel m : ℕ) (st0 : RemapSt),
      (runIteration (ienvs m) st0).1 = false →
      stress_remapLoop ienvs keep (fuel + 1) m st0 = (runIteration (ienvs m) st0).2.1) := by
  obtain ⟨h1, h2, h3, h4⟩ :=
    remap_orderGo_abort pe order k hk hfail N_PAGES 0 st (Nat.zero_le _) (by omega)
      (fun j _ hjm => hpre j hjm)
  exact ⟨h1, h2, fun j hjk => h3 j (Nat.zero_le _) hjk, h4,
    runIteration_ok_passes,
    fun ienvs keep fuel m st0 h => stress_remapLoop_stop ienvs keep fuel m st0 h⟩

def wPassFail0 : PassEnv :=
  ⟨fun i => if i.val = 0 then ⟨true, false, false⟩ else ⟨true, true, true⟩, fun _ => 1⟩

theorem remap_c5_witness :
    ((0 : ℕ) < N_PAGES ∧
      callOk (wPassFail0.call ⟨0, by norm_num [N_PAGES]⟩) = false) ∧
    ((remap_order wPassFail0 reverseOrder initSt).ok = false ∧
      ∀ j ∈ (remap_order wPassFail0 reverseOrder initSt).attempted, j.val ≤ 0) := by
  have hk : (0 : ℕ) < N_PAGES := by norm_num [N_PAGES]
  have hfail : callOk (wPassFail0.call ⟨0, hk⟩) = false := rfl
  have h := remap_c5_abort wPassFail0 reverseOrder initSt 0 hk
    (fun j hj => absurd hj (Nat.not_lt_zero j)) hfail
  exact ⟨⟨hk, hfail⟩, h.1, h.2.1⟩

/-- Claim C6: in the dispatch-enabled probe, a return value other than the
reserved syscall number with `errno == ENOSYS` makes the stressor report an
informational skip (not a verification failure for that probe) and exit the
loop with the not-implemented status. -/
theorem usersyscall_c6_enosys_skip (usrNo : Int) (envs : ℕ → SyscallEnv)
    (keep : ℕ → Bool) (fuel k : ℕ) (h1 : (envs k).prctlOk = true)
    (h2 : (envs k).ret2 ≠ usrNo) (h3 : (envs k).errno2 = ENOSYS) :
    (stress_usersyscall_iter usrNo (envs k)).exit = IterExit.skipNotImpl ∧
    (stress_usersyscall_iter usrNo (envs k)).skipInfo = true ∧
    (stress_usersyscall_iter usrNo (envs k)).probe2Fail = false ∧
    (stress_usersyscall_iter usrNo (envs k)).siCodeFail = false ∧
    (stress_usersyscall_iter usrNo (envs k)).siErrnoFail = false ∧
    stress_usersyscallLoop usrNo envs keep (fuel + 1) k = ExitStatus.notImplemented := by
  have hiter : stress_usersyscall_iter usrNo (envs k)
      = ⟨IterExit.skipNotImpl, decide (¬ (envs k).errno1 = ENOSYS),
          false, false, false, true⟩ := by
    unfold stress_usersyscall_iter
    rw [if_neg (by simp [h1]), if_pos h2, if_pos h3]
  refine ⟨by rw [hiter], by rw [hiter], by rw [hiter], by rw [hiter], by rw [hiter], ?_⟩
  rw [stress_usersyscallLoop, hiter]

def wSysEnvSkip : SyscallEnv := ⟨true, ENOSYS, 0, ENOSYS, 0, 0⟩

theorem usersyscall_c6_witness :
    ((wSysEnvSkip.prctlOk = true) ∧ (wSysEnvSkip.ret2 ≠ (57344 : Int)) ∧
      (wSysEnvSkip.errno2 = ENOSYS)) ∧
    stress_usersyscallLoop 57344 (fun _ => wSysEnvSkip) (fun _ => true) 1 0
      = ExitStatus.notImplemented := by
  have h := usersyscall_c6_enosys_skip 57344 (fun _ => wSysEnvSkip) (fun _ => true) 0 0
    rfl (by decide) rfl
  exact ⟨⟨rfl, by decide, rfl⟩, h.2.2.2.2.2⟩

/-- Claim C7: the dispatch-disabled probe (selector Allow) treats `errno`
values other than ENOSYS as a verification failure: the `pr_fail` flag of
that check is raised exactly when the observed `errno` differs from ENOSYS,
it is not raised when the syscall layer reports ENOSYS as the code expects,
and the probe's result has no other effect — changing the observed `errno`
changes only that flag, never the exit of the iteration, so the loop
continues past a probe-1 failure. -/
theorem usersyscall_c7_probe1 (usrNo : Int) (env : SyscallEnv) (e2 : ℕ)
    (h : env.prctlOk = true) :
    ((stress_usersyscall_iter usrNo env).probe1Fail = decide (¬ env.errno1 = ENOSYS)) ∧
    (env.errno1 = ENOSYS → (stress_usersyscall_iter usrNo env).probe1Fail = false) ∧
    (stress_usersyscall_iter usrNo { env with errno1 := e2 }
      = { stress_usersyscall_iter usrNo env with probe1Fail := decide (¬ e2 = ENOSYS) }) := by
  rcases env with ⟨p, e1, r2, er2, sc, se⟩
  cases p
  · cases h
  · unfold stress_usersyscall_iter
    dsimp only
    by_cases hr : r2 ≠ usrNo
    · rw [if_pos hr, if_pos hr]
      by_cases he : er2 = ENOSYS
      · rw [if_pos he, if_pos he]
        exact ⟨rfl, fun h1 => by simp [h1], rfl⟩
      · rw [if_neg he, if_neg he]
        exact ⟨rfl, fun h1 => by simp [h1], rfl⟩
    · rw [if_neg hr, if_neg hr]
      by_cases hc : sc ≠ SYS_USER_DISPATCH
      · rw [if_pos hc, if_pos hc]
        exact ⟨rfl, fun h1 => by simp [h1], rfl⟩
      · rw [if_neg hc, if_neg hc]
        by_cases hs : se ≠ 0
        · rw [if_pos hs, if_pos hs]
          exact ⟨rfl, fun h1 => by simp [h1], rfl⟩
        · rw [if_neg hs, if_neg hs]
          exact ⟨rfl, fun h1 => by simp [h1], rfl⟩

def wSysEnvP1 : SyscallEnv := ⟨true, 5, 57344, 0, 2, 0⟩

theorem usersyscall_c7_witness :
    (wSysEnvP1.prctlOk = true) ∧
    (stress_usersyscall_iter 57344 wSysEnvP1).probe1Fail
      = decide (¬ wSysEnvP1.errno1 = ENOSYS) ∧
    (wSysEnvP1.errno1 = ENOSYS →
      (stress_usersyscall_iter 57344 wSysEnvP1).probe1Fail = false) := by
  have h := usersyscall_c7_probe1 57344 wSysEnvP1 0 rfl
  exact ⟨rfl, h.1, h.2.1⟩

/-- Claim C8: over parsed `/proc/self/maps` lines whose matching entries are
well-formed mappings (`begin < end`, addresses within `uintptr_t`), the scan
returns 0 with `*begin` the minimum start and `*end` the maximum end over
all matching (read+execute, libc-named) entries; it returns -1 with
`*begin = *end = 0` when no entry matches or the file cannot be opened. -/
theorem usersyscall_c8_libc_scan (maps : Option (List MapEntry))
    (hsane : ∀ l, maps = some l → ∀ x ∈ l, entryMatches x = true →
      x.mapBegin < x.mapEnd ∧ x.mapEnd ≤ UINTPTR_MAX) :
    (maps = none → stress_sigsys_libc_mapping maps = (-1, 0, 0)) ∧
    (∀ l, maps = some l →
      (l.filter entryMatches = [] → stress_sigsys_libc_mapping maps = (-1, 0, 0)) ∧
      (l.filter entryMatches ≠ [] →
        (stress_sigsys_libc_mapping maps).1 = 0 ∧
        (stress_sigsys_libc_mapping maps).2.1
          ∈ (l.filter entryMatches).map MapEntry.mapBegin ∧
        (∀ y ∈ (l.filter entryMatches).map MapEntry.mapBegin,
          (stress_sigsys_libc_mapping maps).2.1 ≤ y) ∧
        (stress_sigsys_libc_mapping maps).2.2
          ∈ (l.filter entryMatches).map MapEntry.mapEnd ∧
        (∀ y ∈ (l.filter entryMatches).map MapEntry.mapEnd,
          y ≤ (stress_sigsys_libc_mapping maps).2.2))) := by
  constructor
  · intro hnone
    rw [hnone]
    rfl
  · intro l hl
    subst hl
    constructor
    · intro hempt
      show (if (libcScanGo l UINTPTR_MAX 0).1 = UINTPTR_MAX
            || (libcScanGo l UINTPTR_MAX 0).2 = 0 then ((-1 : Int), 0, 0)
          else (0, (libcScanGo l UINTPTR_MAX 0).1, (libcScanGo l UINTPTR_MAX 0).2))
        = (-1, 0, 0)
      rw [libcScanGo_spec, hempt]
      simp
    · intro hne
      obtain ⟨x0, hx0⟩ := List.exists_mem_of_ne_nil _ hne
      have hx0m : entryMatches x0 = true := (List.mem_filter.1 hx0).2
      have hx0l : x0 ∈ l := (List.mem_filter.1 hx0).1
      obtain ⟨hlt, hle⟩ := hsane l rfl x0 hx0l hx0m
      have hb0 : x0.mapBegin ∈ (l.filter entryMatches).map MapEntry.mapBegin :=
        List.mem_map_of_mem _ hx0
      have he0 : x0.mapEnd ∈ (l.filter entryMatches).map MapEntry.mapEnd :=
        List.mem_map_of_mem _ hx0
      have hblt : ((l.filter entryMatches).map MapEntry.mapBegin).foldl min UINTPTR_MAX
          < UINTPTR_MAX :=
        lt_of_le_of_lt (foldl_min_le_mem _ _ _ hb0) (lt_of_lt_of_le hlt hle)
      have hene : 0 < ((l.filter entryMatches).map MapEntry.mapEnd).foldl max 0 :=
        lt_of_lt_of_le (Nat.lt_of_le_of_lt (Nat.zero_le _) hlt) (le_foldl_max_mem _ _ _ he0)
      have hres : stress_sigsys_libc_mapping (some l)
          = (0, ((l.filter entryMatches).map MapEntry.mapBegin).foldl min UINTPTR_MAX,
              ((l.filter entryMatches).map MapEntry.mapEnd).foldl max 0) := by
        show (if (libcScanGo l UINTPTR_MAX 0).1 = UINTPTR_MAX
              || (libcScanGo l UINTPTR_MAX 0).2 = 0 then ((-1 : Int), 0, 0)
            else (0, (libcScanGo l UINTPTR_MAX 0).1, (libcScanGo l UINTPTR_MAX 0).2))
          = _
        rw [libcScanGo_spec]
        rw [if_neg (by simp; omega)]
      rw [hres]
      refine ⟨rfl, ?_, ?_, ?_, ?_⟩
      · rcases foldl_min_mem_or ((l.filter entryMatches).map MapEntry.mapBegin)
          UINTPTR_MAX with h | h
        · exfalso
          rw [h] at hblt
          exact lt_irrefl _ hblt
        · exact h
      · intro y hy
        exact foldl_min_le_mem _ _ _ hy
      · rcases foldl_max_mem_or ((l.filter entryMatches).map MapEntry.mapEnd) 0 with h | h
        · exfalso
          rw [h] at hene
          exact lt_irrefl _ hene
        · exact h
      · intro y hy
        exact le_foldl_max_mem _ _ _ hy

def wMapsEntry : MapEntry :=
  ⟨139635865944064, 139635867279360, "r-xp", "/usr/lib/x86_64-linux-gnu/libc.so.6", 8⟩

theorem usersyscall_c8_witness :
    (∀ l, (some [wMapsEntry] : Option (List MapEntry)) = some l →
      ∀ x ∈ l, entryMatches x = true → x.mapBegin < x.mapEnd ∧ x.mapEnd ≤ UINTPTR_MAX) ∧
    ([wMapsEntry].filter entryMatches ≠ [] →
      (stress_sigsys_libc_mapping (some [wMapsEntry])).1 = 0 ∧
      (stress_sigsys_libc_mapping (some [wMapsEntry])).2.1
        ∈ ([wMapsEntry].filter entryMatches).map MapEntry.mapBegin ∧
      (∀ y ∈ ([wMapsEntry].filter entryMatches).map MapEntry.mapBegin,
        (stress_sigsys_libc_mapping (some [wMapsEntry])).2.1 ≤ y) ∧
      (stress_sigsys_libc_mapping (some [wMapsEntry])).2.2
        ∈ ([wMapsEntry].filter entryMatches).map MapEntry.mapEnd ∧
      (∀ y ∈ ([wMapsEntry].filter entryMatches).map MapEntry.mapEnd,
        y ≤ (stress_sigsys_libc_mapping (some [wMapsEntry])).2.2)) := by
  have hsane : ∀ l, (some [wMapsEntry] : Option (List MapEntry)) = some l →
      ∀ x ∈ l, entryMatches x = true → x.mapBegin < x.mapEnd ∧ x.mapEnd ≤ UINTPTR_MAX := by
    intro l hl x hx _
    cases Option.some.inj hl
    rcases List.mem_singleton.1 hx with rfl
    constructor
    · norm_num [wMapsEntry]
    · norm_num [wMapsEntry, UINTPTR_MAX]
  have h := usersyscall_c8_libc_scan (some [wMapsEntry]) hsane
  exact ⟨hsane, (h.2 [wMapsEntry] rfl).2⟩

/-- Claim C9: the single metric the stressor emits at teardown carries the
label "nanosecs per page remap" and the value `rate * 1e9` with
`rate = duration / count` when `count > 0` (and 0 otherwise); and the
accumulators grow only with remap calls whose first (timed) attempt
succeeded: over any pass, `count` grows by the number of attempted indices
whose timed call succeeded and `duration` by the sum of their elapsed
times. -/
theorem remap_c9_metric (ienvs : ℕ → IterEnv) (keep : ℕ → Bool) (fuel : ℕ) :
    (stress_remap ienvs keep fuel).2.1 = "nanosecs per page remap" ∧
    (stress_remap ienvs keep fuel).2.2
      = (if (stress_remapLoop ienvs keep fuel 0 initSt).count > 0 then
          (stress_remapLoop ienvs keep fuel 0 initSt).duration
            / (stress_remapLoop ienvs keep fuel 0 initSt).count
        else 0) * 1000000000 ∧
    (∀ (pe : PassEnv) (order : Fin N_PAGES → Fin N_PAGES) (st0 : RemapSt),
      (remap_order pe order st0).st.count
        = st0.count + (((remap_order pe order st0).attempted.filter
            (fun j => (pe.call j).remap1Ok)).length : ℚ) ∧
      (remap_order pe order st0).st.duration
        = st0.duration + (((remap_order pe order st0).attempted.filter
            (fun j => (pe.call j).remap1Ok)).map pe.elapsed).sum) :=
  ⟨rfl, rfl, fun pe order st0 => remap_orderGo_accum pe order N_PAGES 0 st0⟩

/-- Claim C10: when no remap call ever succeeded (`count = 0`), the guarded
teardown takes the `rate = 0` branch — no division happens — and the
emitted "nanosecs per page remap" value is exactly 0. -/
theorem remap_c10_zero_count (ienvs : ℕ → IterEnv) (keep : ℕ → Bool) (fuel : ℕ)
    (h : (stress_remapLoop ienvs keep fuel 0 initSt).count = 0) :
    (stress_remap ienvs keep fuel).2.2 = 0 := by
  have hdef : (stress_remap ienvs keep fuel).2.2
      = (if (stress_remapLoop ienvs keep fuel 0 initSt).count > 0 then
          (stress_remapLoop ienvs keep fuel 0 initSt).duration
            / (stress_remapLoop ienvs keep fuel 0 initSt).count
        else 0) * 1000000000 := rfl
  rw [hdef, h, if_neg (lt_irrefl (0 : ℚ)), zero_mul]

def wIterAllFail : IterEnv :=
  ⟨⟨fun _ => ⟨true, false, false⟩, fun _ => 1⟩,
   ⟨fun _ => ⟨true, false, false⟩, fun _ => 1⟩,
   ⟨fun _ => ⟨true, false, false⟩, fun _ => 1⟩,
   ⟨fun _ => ⟨true, false, false⟩, fun _ => 1⟩, fun _ => 0⟩

theorem remap_c10_witness :
    (stress_remapLoop (fun _ => wIterAllFail) (fun _ => false) 1 0 initSt).count = 0 ∧
    (stress_remap (fun _ => wIterAllFail) (fun _ => false) 1).2.2 = 0 := by
  have h : (stress_remapLoop (fun _ => wIterAllFail) (fun _ => false) 1 0 initSt).count
      = 0 := rfl
  exact ⟨h, remap_c10_zero_count (fun _ => wIterAllFail) (fun _ => false) 1 h⟩
